import Mathlib

/-!
Verification of the `wut-curriculum-learning` experiment scheduler, DQN agent
helpers and stopwatch utility, shallowly embedded from the Python sources:
`experiments/experiment_3/run.py`, `src/academia/agents/dqn_agent.py`,
`src/academia/curriculum/curriculum.py` and `academia/utils/stopwatch.py`.

Numbers held as Python ints are modelled as `Nat`; float arithmetic used by
the scheduler's step-budget computation, action values, network parameters
and timestamps are modelled over `ℚ`.

The file lists all definitions first and all lemmas and theorems after.
-/

namespace CurriculumLearning

/-- Agent families handled by the experiment scheduler (`'ppo'` / `'dqn'`). -/
inductive AgentType
  | ppo
  | dqn
deriving DecidableEq, Repr

/-- Run kinds handled by the scheduler (`'curr'` / `'nocurr'`). -/
inductive RunnableType
  | curr
  | nocurr
deriving DecidableEq, Repr

/-- Per-family counters of `meta.json`: completed curriculum runs, cumulative
step count consumed by curriculum runs, completed no-curriculum runs. -/
structure FamilyMeta where
  curr_runs : Nat
  curr_steps_sum : Nat
  nocurr_runs : Nat
deriving DecidableEq, Repr

/-- The scheduler meta-state (`meta.json`): the global per-arm budget
`n_runs` plus one `FamilyMeta` per agent family. -/
structure Meta where
  n_runs : Nat
  ppo : FamilyMeta
  dqn : FamilyMeta
deriving DecidableEq, Repr

/-- Field access `meta[agent_type]` of the Python meta dict. -/
def familyMeta (meta : Meta) : AgentType → FamilyMeta
  | AgentType.ppo => meta.ppo
  | AgentType.dqn => meta.dqn

/-- Embedding of `determine_next_run` (run.py, lines 128-178).  The Python
function returns either `(agent_type, runnable_type, i, random_state)` or
`(None, None, None, None)`, modelled as an `Option` of a 4-tuple.  The
`if/elif` chains all `return`, so the translation is one nested
if-then-else chain in source order. -/
def determine_next_run (meta : Meta) (force_agent_type : Option AgentType)
    (allow_curr allow_nocurr : Bool) :
    Option (AgentType × RunnableType × Nat × Nat) :=
  let n_runs := meta.n_runs
  let can_use_ppo := force_agent_type.isNone || force_agent_type == some AgentType.ppo
  let can_use_dqn := force_agent_type.isNone || force_agent_type == some AgentType.dqn
  if can_use_ppo && allow_curr && decide (meta.ppo.curr_runs < n_runs) then
    some (AgentType.ppo, RunnableType.curr, meta.ppo.curr_runs,
      meta.ppo.curr_runs + 0 * n_runs)
  else if can_use_ppo && allow_nocurr && decide (meta.ppo.curr_runs = n_runs)
      && decide (meta.ppo.nocurr_runs < n_runs) then
    some (AgentType.ppo, RunnableType.nocurr, meta.ppo.nocurr_runs,
      meta.ppo.nocurr_runs + 1 * n_runs)
  else if can_use_dqn && allow_curr && decide (meta.dqn.curr_runs < n_runs) then
    some (AgentType.dqn, RunnableType.curr, meta.dqn.curr_runs,
      meta.dqn.curr_runs + 2 * n_runs)
  else if can_use_dqn && allow_nocurr && decide (meta.dqn.curr_runs = n_runs)
      && decide (meta.dqn.nocurr_runs < n_runs) then
    some (AgentType.dqn, RunnableType.nocurr, meta.dqn.nocurr_runs,
      meta.dqn.nocurr_runs + 3 * n_runs)
  else none

/-- Modelled from the spec: the four arms in the scheduler's fixed priority
order (ppo curriculum, ppo no-curriculum, dqn curriculum, dqn
no-curriculum). -/
def armPriority : List (AgentType × RunnableType) :=
  [(AgentType.ppo, RunnableType.curr), (AgentType.ppo, RunnableType.nocurr),
   (AgentType.dqn, RunnableType.curr), (AgentType.dqn, RunnableType.nocurr)]

/-- Modelled from the spec: an arm qualifies when its family is not excluded
by the forced-family filter, its kind is not disabled, its run counter is
below `n_runs`, and for a no-curriculum arm the family's curriculum counter
equals `n_runs`. -/
def armQualifies (meta : Meta) (force_agent_type : Option AgentType)
    (allow_curr allow_nocurr : Bool) : AgentType × RunnableType → Bool
  | (a, RunnableType.curr) =>
      (force_agent_type.isNone || force_agent_type == some a) && allow_curr
        && decide ((familyMeta meta a).curr_runs < meta.n_runs)
  | (a, RunnableType.nocurr) =>
      (force_agent_type.isNone || force_agent_type == some a) && allow_nocurr
        && decide ((familyMeta meta a).curr_runs = meta.n_runs)
        && decide ((familyMeta meta a).nocurr_runs < meta.n_runs)

/-- Run index that a selected arm receives: the arm's own completed-run
counter. -/
def armIndex (meta : Meta) : AgentType × RunnableType → Nat
  | (a, RunnableType.curr) => (familyMeta meta a).curr_runs
  | (a, RunnableType.nocurr) => (familyMeta meta a).nocurr_runs

/-- Per-arm seed stride multiplier: 0, 1, 2, 3 for the four arms in priority
order, matching the `+ k * n_runs` offsets of `determine_next_run`. -/
def armStride : AgentType × RunnableType → Nat
  | (AgentType.ppo, RunnableType.curr) => 0
  | (AgentType.ppo, RunnableType.nocurr) => 1
  | (AgentType.dqn, RunnableType.curr) => 2
  | (AgentType.dqn, RunnableType.nocurr) => 3

/-- Seed assigned to run `i` of an arm: the run index offset by the arm's
stride times `n_runs`. -/
def armSeed (n_runs : Nat) (arm : AgentType × RunnableType) (i : Nat) : Nat :=
  i + armStride arm * n_runs

/-- Outcome of executing one scheduled runnable: whether a
`KeyboardInterrupt` was observed during `runnable.run`, and the total step
count its statistics report.  Run execution itself (training an agent) is
external to the scheduler and abstracted by this record. -/
structure RunOutcome where
  interrupted : Bool
  steps : Nat
deriving DecidableEq, Repr

/-- Reasons the `while True` loop in `run_experiment` breaks. -/
inductive StopReason
  | runsLimit
  | timeLimit
  | exhausted
deriving DecidableEq, Repr

/-- Observable effects of `run_experiment`, recorded in program order:
run selection, config writes, run executions, meta-file writes
(`save_meta`), loop exit. -/
inductive Event
  | evSelect (a : AgentType) (k : RunnableType) (i seed : Nat)
  | evSaveConfig (a : AgentType) (k : RunnableType) (i : Nat)
  | evRun (a : AgentType) (k : RunnableType) (i : Nat) (budget : Option ℚ)
      (interrupted : Bool)
  | evSaveMeta (m : Meta)
  | evStop (r : StopReason)
deriving DecidableEq, Repr

/-- Step budget passed to the runnable (run.py, lines 209-212): a
no-curriculum run gets `3 * meta[agent_type]['curr_steps_sum'] /
meta['n_runs']` (float division, modelled over `ℚ`); a curriculum run gets
`np.inf`, modelled as `none`. -/
def stepBudget (meta : Meta) (a : AgentType) : RunnableType → Option ℚ
  | RunnableType.nocurr =>
      some (3 * ((familyMeta meta a).curr_steps_sum : ℚ) / (meta.n_runs : ℚ))
  | RunnableType.curr => none

/-- Update of one family record by the end-of-iteration accounting. -/
def bumpFamily (fm : FamilyMeta) (k : RunnableType) (steps : Nat) : FamilyMeta :=
  match k with
  | RunnableType.curr => ⟨fm.curr_runs + 1, fm.curr_steps_sum + steps, fm.nocurr_runs⟩
  | RunnableType.nocurr => ⟨fm.curr_runs, fm.curr_steps_sum, fm.nocurr_runs + 1⟩

/-- The counter updates at the end of a loop iteration (run.py, lines
224-230): `meta[agent_type][f'TYPE_runs'] += 1`, and for a curriculum run
additionally `meta[agent_type]['curr_steps_sum'] += steps_this_curriculum`. -/
def applyRunAccounting (meta : Meta) (a : AgentType) (k : RunnableType)
    (steps : Nat) : Meta :=
  match a with
  | AgentType.ppo => ⟨meta.n_runs, bumpFamily meta.ppo k steps, meta.dqn⟩
  | AgentType.dqn => ⟨meta.n_runs, meta.ppo, bumpFamily meta.dqn k steps⟩

/-- One iteration's body after a run has been selected (run.py, lines
207-230): compute the step budget, save the runnable's config, execute it;
if a `KeyboardInterrupt` is raised the handler saves the meta file, after
which control falls through to the counter updates, which therefore run in
either case. -/
def runBody (meta : Meta) (a : AgentType) (k : RunnableType) (i : Nat)
    (oc : RunOutcome) : Meta × List Event :=
  let budget := stepBudget meta a k
  let runEvs := [Event.evSaveConfig a k i, Event.evRun a k i budget oc.interrupted]
  let interruptEvs := if oc.interrupted then [Event.evSaveMeta meta] else []
  (applyRunAccounting meta a k oc.steps, runEvs ++ interruptEvs)

/-- The `while True` loop of `run_experiment` (run.py, lines 192-230):
`runs` is the local run counter, `n_runs_limit` the `n_runs` parameter
(run-count budget, distinct from the meta-state's per-arm budget),
`timeUp j` models the stopwatch check `sw.peek_time()[0] >= wall_time` at
the `j`-th iteration, and `outcomes` models the result of each runnable
execution.  The fuel argument bounds the recursion; `n_runs_limit + 1`
iterations always suffice, since the counter check breaks the loop then. -/
def loopIter (n_runs_limit : Nat) (timeUp : Nat → Bool)
    (outcomes : AgentType → RunnableType → Nat → RunOutcome)
    (force_agent_type : Option AgentType) (allow_curr allow_nocurr : Bool) :
    Nat → Meta → Nat → Meta × List Event
  | 0, meta, _ => (meta, [])
  | fuel + 1, meta, runs =>
    let runs' := runs + 1
    if runs' > n_runs_limit then (meta, [Event.evStop StopReason.runsLimit])
    else if timeUp runs' then (meta, [Event.evStop StopReason.timeLimit])
    else
      match determine_next_run meta force_agent_type allow_curr allow_nocurr with
      | none => (meta, [Event.evStop StopReason.exhausted])
      | some (a, k, i, seed) =>
        let oc := outcomes a k i
        let body := runBody meta a k i oc
        let rest := loopIter n_runs_limit timeUp outcomes force_agent_type
          allow_curr allow_nocurr fuel body.1 runs'
        (rest.1, Event.evSelect a k i seed :: body.2 ++ rest.2)

/-- Embedding of `run_experiment` (run.py, lines 181-232): run the loop
from the loaded meta-state with `runs = 0`, then perform the final
`save_meta(meta)` (line 232). -/
def runExperimentModel (n_runs_limit : Nat) (timeUp : Nat → Bool)
    (outcomes : AgentType → RunnableType → Nat → RunOutcome)
    (force_agent_type : Option AgentType) (allow_curr allow_nocurr : Bool)
    (meta : Meta) : Meta × List Event :=
  let r := loopIter n_runs_limit timeUp outcomes force_agent_type allow_curr
    allow_nocurr (n_runs_limit + 1) meta 0
  (r.1, r.2 ++ [Event.evSaveMeta r.1])

/-- Trace check: the meta file is written before the next run selection (or
the trace's end). -/
def savedBeforeNextSelect : List Event → Bool
  | [] => true
  | Event.evSaveMeta _ :: _ => true
  | Event.evSelect _ _ _ _ :: _ => false
  | _ :: rest => savedBeforeNextSelect rest

/-- Trace check for the claim that counters are persisted per run: after
every run that returned normally (no interrupt), the meta file is written
before the next run selection. -/
def completedRunsPersisted : List Event → Bool
  | [] => true
  | Event.evRun _ _ _ _ false :: rest =>
      savedBeforeNextSelect rest && completedRunsPersisted rest
  | _ :: rest => completedRunsPersisted rest

/-- Trace check: every interrupted run is immediately followed by a meta
write. -/
def interruptsPersisted : List Event → Bool
  | [] => true
  | Event.evRun _ _ _ _ true :: rest =>
      (match rest with
        | Event.evSaveMeta _ :: _ => true
        | _ => false) && interruptsPersisted rest
  | _ :: rest => interruptsPersisted rest

/-- Modelled from the spec: the no-curriculum step budget is three times the
family's cumulative curriculum step sum divided by `n_runs`. -/
def specNocurrBudget (meta : Meta) (a : AgentType) : ℚ :=
  3 * ((familyMeta meta a).curr_steps_sum : ℚ) / (meta.n_runs : ℚ)

/-- Identifier names appearing in the Python sources relevant to the
`Curriculum` interface.  `run.py` calls `Curriculum(tasks, output_dir=...)`
and later reads `runnable.stats`, while `curriculum.py` declares
`__slots__ = ['tasks']`, `def __init__(self, tasks)` and the methods
`run`, `load`, `save` plus a name-mangled private helper; Python's
call/attribute rules are embedded over these declared names. -/
inductive PyName
  | tasks
  | output_dir
  | stats
  | runMethod
  | saveMethod
  | loadMethod
  | getTaskIdMethod
deriving DecidableEq, Repr

/-- Parameters of `Curriculum.__init__` after `self` (curriculum.py,
line 19). -/
def curriculumInitParams : List PyName := [PyName.tasks]

/-- The `Curriculum.__slots__` declaration (curriculum.py, line 17): the
only instance attribute a `Curriculum` object can hold. -/
def curriculumSlots : List PyName := [PyName.tasks]

/-- Names bound in the `Curriculum` class body (its methods; the private
helper is stored under its mangled name). -/
def curriculumClassAttrs : List PyName :=
  [PyName.runMethod, PyName.loadMethod, PyName.saveMethod, PyName.getTaskIdMethod]

/-- Keyword arguments of the `Curriculum(...)` call in `get_curriculum`
(run.py, lines 83-86); the task list is passed positionally. -/
def getCurriculumKwargs : List PyName := [PyName.output_dir]

/-- A Python call binding `nPositional` positional arguments and the listed
keyword names succeeds only if every keyword names a parameter not already
bound positionally; otherwise it raises `TypeError`. -/
def kwargsAccepted (params : List PyName) (nPositional : Nat)
    (kwargs : List PyName) : Bool :=
  kwargs.all (fun kw => (params.drop nPositional).contains kw)

/-- Attribute lookup on a slotted `Curriculum` instance succeeds only for a
slot or a name bound in the class body; anything else raises
`AttributeError`. -/
def curriculumHasAttr (n : PyName) : Bool :=
  curriculumSlots.contains n || curriculumClassAttrs.contains n

/-- State of `_GenericStopwatch` (stopwatch.py): the completed lap durations
and the start timestamp of the currently open lap (`None` when stopped).
The clock source (`time.perf_counter` / `time.process_time`) is
externalized: every operation takes the current timestamp as an explicit
`ℚ` argument.  Operations that raise `RuntimeError` when the stopwatch is
not running return `none`. -/
structure GenericStopwatch where
  lap_times : List ℚ
  lap_start : Option ℚ
deriving DecidableEq, Repr

namespace GenericStopwatch

/-- The `is_running` property (stopwatch.py, lines 83-85). -/
def is_running (s : GenericStopwatch) : Bool := s.lap_start.isSome

/-- The `start` method (stopwatch.py, lines 87-92): an implicit `stop` if
already running (its result is discarded and it only clears `lap_start`),
then the lap history is cleared and a new lap begins at the current
timestamp; the net effect is the same from any prior state. -/
def start (t : ℚ) (_s : GenericStopwatch) : GenericStopwatch := ⟨[], some t⟩

/-- The `lap` method (stopwatch.py, lines 106-120): closes the current lap,
records and returns its duration, and starts a new lap at the current
timestamp. -/
def lap (t : ℚ) (s : GenericStopwatch) : Option (ℚ × GenericStopwatch) :=
  match s.lap_start with
  | none => none
  | some ls => some (t - ls, ⟨s.lap_times ++ [t - ls], some t⟩)

/-- The `peek_time` method (stopwatch.py, lines 94-104): current open-lap
duration plus the sum of completed laps. -/
def peek_time (t : ℚ) (s : GenericStopwatch) : Option ℚ :=
  match s.lap_start with
  | none => none
  | some ls => some ((t - ls) + s.lap_times.sum)

/-- The `stop` method (stopwatch.py, lines 135-155): with `lap = true` the
final lap is closed first and the total is the sum of all recorded laps;
otherwise the total is the sum of recorded laps plus the open partial lap.
Either way `lap_start` is cleared. -/
def stop (lapFlag : Bool) (t : ℚ) (s : GenericStopwatch) :
    Option (ℚ × GenericStopwatch) :=
  match s.lap_start with
  | none => none
  | some ls =>
    if lapFlag then
      some ((s.lap_times ++ [t - ls]).sum, ⟨s.lap_times ++ [t - ls], none⟩)
    else
      some (s.lap_times.sum + (t - ls), ⟨s.lap_times, none⟩)

/-- Execute a sequence of `lap` calls at the given timestamps, collecting
the reported lap durations. -/
def lapSeq (s : GenericStopwatch) : List ℚ → GenericStopwatch × List ℚ
  | [] => (s, [])
  | t :: ts =>
    match lap t s with
    | none => (s, [])
    | some (d, s') =>
      let r := lapSeq s' ts
      (r.1, d :: r.2)

/-- A fresh stopwatch started at `t0` followed by `lap` calls at the
timestamps `ts`. -/
def runLaps (t0 : ℚ) (ts : List ℚ) : GenericStopwatch × List ℚ :=
  lapSeq (start t0 ⟨[], none⟩) ts

end GenericStopwatch

/-- Embedding of `torch.min` over a value vector (the global minimum of the
tensor). -/
def listMin : List ℚ → ℚ
  | [] => 0
  | [x] => x
  | x :: y :: xs => min x (listMin (y :: xs))

/-- The legal-mask transform of `get_action` (dqn_agent.py, lines 170-173):
`q_val_act = (q_val_act - torch.min(q_val_act)) * legal_mask + legal_mask`,
elementwise. -/
def maskTransform (q_val_act legal_mask : List ℚ) : List ℚ :=
  List.zipWith (fun q b => (q - listMin q_val_act) * b + b) q_val_act legal_mask

/-- Embedding of `torch.argmax` over a value vector: the smallest index
attaining the maximum value (ties keep the earlier index). -/
def argmaxIdx (l : List ℚ) : Nat :=
  (List.range l.length).foldl (fun bi j => if l.getD j 0 > l.getD bi 0 then j else bi) 0

/-- The `DQNAgent.REPLAY_MEMORY_SIZE` constant (dqn_agent.py, line 70): the
`deque` capacity of the replay memory. -/
def DQN_REPLAY_MEMORY_SIZE : Nat := 100000

/-- The `DQNAgent.TAU` constant (dqn_agent.py, line 74): the soft-update
interpolation parameter, 0.001. -/
def DQN_TAU : ℚ := 1 / 1000

/-- The `DQNAgent.UPDATE_EVERY` constant (dqn_agent.py, line 76). -/
def DQN_UPDATE_EVERY : Nat := 3

/-- The `__soft_update_target` rule (dqn_agent.py, lines 186-196), applied
to every parameter pair:
`target_params = TAU * network_params + (1 - TAU) * target_params`.  The
interpolation parameter is kept explicit so the rule can be analysed at any
value; the agent itself always passes `DQN_TAU`. -/
def soft_update_target (tau : ℚ) (network_params target_params : List ℚ) : List ℚ :=
  List.zipWith (fun p t => tau * p + (1 - tau) * t) network_params target_params

/-- The parameter-level state of a `DQNAgent` relevant to `update`:
primary and target parameter vectors, the modular step counter, the replay
memory fill level and the batch size. -/
structure DQNState where
  network : List ℚ
  target_network : List ℚ
  train_step : Nat
  memory_len : Nat
  batch_size : Nat
deriving DecidableEq, Repr

/-- The `update` method (dqn_agent.py, lines 198-223) at the parameter
level: the experience is appended (the deque evicts at capacity, so the fill
level saturates), the step counter advances modulo `UPDATE_EVERY`, and a
learning step runs only when the counter wraps to 0 and the memory holds at
least one batch.  The optimizer is constructed over
`self.network.parameters()` only (line 133), so its step — abstracted by
`optStep`, which may move the primary parameters arbitrarily — writes the
primary parameters alone; `__soft_update_target` then runs immediately. -/
def DQNupdate (optStep : List ℚ → List ℚ) (s : DQNState) : DQNState :=
  let memory_len' := min (s.memory_len + 1) DQN_REPLAY_MEMORY_SIZE
  let train_step' := (s.train_step + 1) % DQN_UPDATE_EVERY
  if train_step' = 0 ∧ s.batch_size ≤ memory_len' then
    let network' := optStep s.network
    ⟨network', soft_update_target DQN_TAU network' s.target_network,
      train_step', memory_len', s.batch_size⟩
  else
    ⟨s.network, s.target_network, train_step', memory_len', s.batch_size⟩

/-- Persisted numpy generator state, modelled as an infinite stream of draws
with a position; each generator method call (`uniform`, `choice`,
`integers`) consumes exactly one draw. -/
structure RngState where
  stream : Nat → ℚ
  pos : Nat

/-- Model of `rng.uniform()`: return the draw at the current position and
advance. -/
def rngUniform (r : RngState) : ℚ × RngState :=
  (r.stream r.pos, ⟨r.stream, r.pos + 1⟩)

/-- Inverse-CDF selection used to model `rng.choice(..., p=w)`: the first
index whose cumulative weight exceeds the draw. -/
def cumSelect : List ℚ → ℚ → Nat
  | [], _ => 0
  | w :: ws, u => if u < w then 0 else cumSelect ws (u - w) + 1

/-- Model of `rng.choice(np.arange(0, n), size=1, p=mask/mask.sum())[0]`:
one draw is consumed and a mask-weighted index is selected. -/
def rngChoice (weights : List ℚ) (r : RngState) : Nat × RngState :=
  let d := rngUniform r
  (cumSelect weights d.1, d.2)

/-- Model of `rng.integers(0, n)`: one draw is consumed and scaled to an
index. -/
def rngIntegers (n : Nat) (r : RngState) : Nat × RngState :=
  let d := rngUniform r
  ((⌊d.1 * n⌋).toNat, d.2)

/-- The `get_action` method (dqn_agent.py, lines 149-184) reduced to its
decision structure: the raw action values come from the primary network
(abstracted as the input list), the optional legal mask transforms them,
then `self._rng.uniform() > self.epsilon or greedy` decides between the
arg-max and exploration (mask-weighted `choice` or uniform `integers`).
Python evaluates the left operand of `or` first, so `uniform()` is called
before the greedy flag can short-circuit anything. -/
def getAction (epsilon : ℚ) (n_actions : Nat) (q_val_act : List ℚ)
    (legal_mask : Option (List ℚ)) (greedy : Bool) (r : RngState) : Nat × RngState :=
  let q' := match legal_mask with
    | some m => maskTransform q_val_act m
    | none => q_val_act
  let d := rngUniform r
  if decide (epsilon < d.1) || greedy then
    (argmaxIdx q', d.2)
  else
    match legal_mask with
    | some m => rngChoice m d.2
    | none => rngIntegers n_actions d.2

/-! ## Lemmas and theorems -/

/-- Helper: `determine_next_run` equals "first qualifying arm in priority
order, paired with its run index and seed". -/
lemma determine_next_run_eq_find (meta : Meta) (force_agent_type : Option AgentType)
    (allow_curr allow_nocurr : Bool) :
    determine_next_run meta force_agent_type allow_curr allow_nocurr =
      (armPriority.find? (armQualifies meta force_agent_type allow_curr allow_nocurr)).map
        (fun arm => (arm.1, arm.2, armIndex meta arm,
          armSeed meta.n_runs arm (armIndex meta arm))) := by
  have e : determine_next_run meta force_agent_type allow_curr allow_nocurr =
      (if armQualifies meta force_agent_type allow_curr allow_nocurr
          (AgentType.ppo, RunnableType.curr) then
        some (AgentType.ppo, RunnableType.curr,
          armIndex meta (AgentType.ppo, RunnableType.curr),
          armSeed meta.n_runs (AgentType.ppo, RunnableType.curr)
            (armIndex meta (AgentType.ppo, RunnableType.curr)))
      else if armQualifies meta force_agent_type allow_curr allow_nocurr
          (AgentType.ppo, RunnableType.nocurr) then
        some (AgentType.ppo, RunnableType.nocurr,
          armIndex meta (AgentType.ppo, RunnableType.nocurr),
          armSeed meta.n_runs (AgentType.ppo, RunnableType.nocurr)
            (armIndex meta (AgentType.ppo, RunnableType.nocurr)))
      else if armQualifies meta force_agent_type allow_curr allow_nocurr
          (AgentType.dqn, RunnableType.curr) then
        some (AgentType.dqn, RunnableType.curr,
          armIndex meta (AgentType.dqn, RunnableType.curr),
          armSeed meta.n_runs (AgentType.dqn, RunnableType.curr)
            (armIndex meta (AgentType.dqn, RunnableType.curr)))
      else if armQualifies meta force_agent_type allow_curr allow_nocurr
          (AgentType.dqn, RunnableType.nocurr) then
        some (AgentType.dqn, RunnableType.nocurr,
          armIndex meta (AgentType.dqn, RunnableType.nocurr),
          armSeed meta.n_runs (AgentType.dqn, RunnableType.nocurr)
            (armIndex meta (AgentType.dqn, RunnableType.nocurr)))
      else none) := rfl
  rw [e]
  simp only [armPriority, List.find?]
  cases h1 : armQualifies meta force_agent_type allow_curr allow_nocurr
      (AgentType.ppo, RunnableType.curr) <;>
  cases h2 : armQualifies meta force_agent_type allow_curr allow_nocurr
      (AgentType.ppo, RunnableType.nocurr) <;>
  cases h3 : armQualifies meta force_agent_type allow_curr allow_nocurr
      (AgentType.dqn, RunnableType.curr) <;>
  cases h4 : armQualifies meta force_agent_type allow_curr allow_nocurr
      (AgentType.dqn, RunnableType.nocurr) <;>
  simp [h1, h2, h3, h4]

/-- C1: for every meta-state and flag combination, `determine_next_run`
returns the first arm in the fixed priority order (ppo curriculum, ppo
no-curriculum, dqn curriculum, dqn no-curriculum) that qualifies — family
not excluded, kind not disabled, run counter below `n_runs`, and for a
no-curriculum arm the family's curriculum counter equal to `n_runs` —
together with that arm's run index and seed; it returns the
all-`None` tuple exactly when no arm qualifies. -/
theorem determine_next_run_selects_first_qualifying_arm
    (meta : Meta) (force_agent_type : Option AgentType)
    (allow_curr allow_nocurr : Bool) :
    determine_next_run meta force_agent_type allow_curr allow_nocurr =
      (armPriority.find? (armQualifies meta force_agent_type allow_curr allow_nocurr)).map
        (fun arm => (arm.1, arm.2, armIndex meta arm,
          armSeed meta.n_runs arm (armIndex meta arm))) :=
  determine_next_run_eq_find meta force_agent_type allow_curr allow_nocurr

/-- C8: the seed returned by `determine_next_run` equals the run index plus a
fixed per-arm stride (0, 1, 2 or 3 times `n_runs` for the four arms in
priority order), and for every positive `n_runs` the seed map is injective on
(arm, run-index) pairs with index below `n_runs`: seeds neither collide
across arms nor repeat within an arm. -/
theorem seeds_unique_across_arms :
    (∀ (meta : Meta) (force_agent_type : Option AgentType)
      (allow_curr allow_nocurr : Bool) (a : AgentType) (k : RunnableType) (i s : Nat),
      determine_next_run meta force_agent_type allow_curr allow_nocurr = some (a, k, i, s) →
        s = armSeed meta.n_runs (a, k) i) ∧
    (∀ n : Nat, 0 < n → ∀ arm1 arm2 : AgentType × RunnableType, ∀ i1 i2 : Nat,
      i1 < n → i2 < n → armSeed n arm1 i1 = armSeed n arm2 i2 → arm1 = arm2 ∧ i1 = i2) := by
  constructor
  · intro meta force_agent_type allow_curr allow_nocurr a k i s h
    rw [determine_next_run_eq_find] at h
    rcases hf : (armPriority.find? (armQualifies meta force_agent_type allow_curr allow_nocurr))
      with _ | arm
    · rw [hf] at h; simp at h
    · obtain ⟨aa, kk⟩ := arm
      rw [hf] at h
      simp only [Option.map_some', Option.some.injEq, Prod.mk.injEq] at h
      obtain ⟨ha, hk, hi, hs⟩ := h
      subst ha; subst hk; subst hi; subst hs
      rfl
  · intro n hn arm1 arm2 i1 i2 hi1 hi2 heq
    obtain ⟨a1, k1⟩ := arm1
    obtain ⟨a2, k2⟩ := arm2
    cases a1 <;> cases k1 <;> cases a2 <;> cases k2 <;>
      simp_all [armSeed, armStride] <;> omega

/-- Witness for `seeds_unique_across_arms` at a concrete meta-state and a
concrete pair of (arm, index) inputs. -/
theorem seeds_unique_across_arms_witness :
    (0 = armSeed 2 (AgentType.ppo, RunnableType.curr) 0) ∧
    ((AgentType.dqn, RunnableType.curr) = (AgentType.dqn, RunnableType.curr) ∧ (1 : Nat) = 1) :=
  ⟨seeds_unique_across_arms.1 ⟨2, ⟨0, 0, 0⟩, ⟨0, 0, 0⟩⟩ none true true
      AgentType.ppo RunnableType.curr 0 0 (by decide),
   seeds_unique_across_arms.2 2 (by decide)
      (AgentType.dqn, RunnableType.curr) (AgentType.dqn, RunnableType.curr) 1 1
      (by decide) (by decide) (by decide)⟩

/-- C2: if a `KeyboardInterrupt` is raised while the scheduled run executes,
the handler saves the meta-state, and the iteration then still performs the
same counter updates as a normal completion: the resulting meta-state equals
the one of an uninterrupted run, the run's completion counter is
incremented, and for a curriculum run the step sum is still accumulated. -/
theorem interrupted_run_still_increments_counters
    (meta : Meta) (a : AgentType) (k : RunnableType) (i steps : Nat) :
    (runBody meta a k i ⟨true, steps⟩).1 = (runBody meta a k i ⟨false, steps⟩).1 ∧
    Event.evSaveMeta meta ∈ (runBody meta a k i ⟨true, steps⟩).2 ∧
    (familyMeta (runBody meta a k i ⟨true, steps⟩).1 a).curr_runs +
      (familyMeta (runBody meta a k i ⟨true, steps⟩).1 a).nocurr_runs =
      (familyMeta meta a).curr_runs + (familyMeta meta a).nocurr_runs + 1 ∧
    (k = RunnableType.curr →
      (familyMeta (runBody meta a k i ⟨true, steps⟩).1 a).curr_steps_sum =
        (familyMeta meta a).curr_steps_sum + steps) := by
  cases a <;> cases k <;>
    simp [runBody, applyRunAccounting, bumpFamily, familyMeta] <;> omega

/-- Witness for `interrupted_run_still_increments_counters`: a concrete
interrupted ppo curriculum run still adds its 7 steps to the family's step
sum. -/
theorem interrupted_run_still_increments_counters_witness :
    (familyMeta (runBody ⟨2, ⟨0, 0, 0⟩, ⟨0, 0, 0⟩⟩ AgentType.ppo RunnableType.curr 0
        ⟨true, 7⟩).1 AgentType.ppo).curr_steps_sum =
      (familyMeta ⟨2, ⟨0, 0, 0⟩, ⟨0, 0, 0⟩⟩ AgentType.ppo).curr_steps_sum + 7 :=
  (interrupted_run_still_increments_counters ⟨2, ⟨0, 0, 0⟩, ⟨0, 0, 0⟩⟩
    AgentType.ppo RunnableType.curr 0 7).2.2.2 rfl

/-- Counterexample to the claim that the meta file is written after every
completed run: a concrete campaign (fresh meta-state with per-arm budget 2,
ppo family forced, no interrupts) completes its first curriculum run and
selects the next run with no meta write in between; `save_meta` is only
called in the interrupt handler and once after the loop exits. -/
theorem meta_not_saved_after_completed_run_cex :
    completedRunsPersisted
      (runExperimentModel 10 (fun _ => false) (fun _ _ _ => ⟨false, 5⟩)
        (some AgentType.ppo) true true ⟨2, ⟨0, 0, 0⟩, ⟨0, 0, 0⟩⟩).2 = false := by
  decide

/-- Helper: the loop trace keeps the invariant that interrupted runs are
immediately followed by a meta write, for any continuation trace that also
keeps it. -/
lemma loopIter_interruptsPersisted (L : Nat) (T : Nat → Bool)
    (O : AgentType → RunnableType → Nat → RunOutcome)
    (F : Option AgentType) (ac an : Bool) :
    ∀ (fuel : Nat) (meta : Meta) (runs : Nat) (tail : List Event),
      interruptsPersisted tail = true →
      interruptsPersisted ((loopIter L T O F ac an fuel meta runs).2 ++ tail) = true := by
  intro fuel
  induction fuel with
  | zero => intro meta runs tail h; simpa [loopIter]
  | succ fuel ih =>
    intro meta runs tail h
    simp only [loopIter]
    split
    · simpa [interruptsPersisted]
    · split
      · simpa [interruptsPersisted]
      · rcases hd : determine_next_run meta F ac an with _ | ⟨a, k, i, seed⟩
        · simpa [interruptsPersisted]
        · rcases hoc : O a k i with ⟨intr, steps⟩
          cases intr <;>
            simp [runBody, hoc, interruptsPersisted] <;>
            exact ih _ _ _ h

/-- C4 amended: the meta-state is written on interrupt (immediately after
the interrupted run) and exactly once after the loop terminates, carrying
the final counters; completed runs do not trigger a per-run write, the
counters are only updated in memory until the loop exits. -/
theorem meta_saved_on_interrupt_and_at_loop_end
    (L : Nat) (T : Nat → Bool) (O : AgentType → RunnableType → Nat → RunOutcome)
    (F : Option AgentType) (ac an : Bool) (meta : Meta) :
    (runExperimentModel L T O F ac an meta).2.getLast? =
      some (Event.evSaveMeta (runExperimentModel L T O F ac an meta).1) ∧
    interruptsPersisted (runExperimentModel L T O F ac an meta).2 = true := by
  constructor
  · simp only [runExperimentModel]
    rw [List.getLast?_append_cons]
    rfl
  · simp only [runExperimentModel]
    exact loopIter_interruptsPersisted L T O F ac an (L + 1) meta 0
      [Event.evSaveMeta (loopIter L T O F ac an (L + 1) meta 0).1] rfl

/-- C7: every no-curriculum run executed by the loop body carries the step
budget `3 * curr_steps_sum / n_runs` of its family, every curriculum run
carries the unbounded (`np.inf`, modelled `none`) budget, and with
`curr_steps_sum = 100` and `n_runs = 10` the computed cap is exactly 30. -/
theorem nocurr_step_budget_formula :
    (∀ (meta : Meta) (a : AgentType) (i : Nat) (oc : RunOutcome),
      Event.evRun a RunnableType.nocurr i (some (specNocurrBudget meta a)) oc.interrupted ∈
        (runBody meta a RunnableType.nocurr i oc).2 ∧
      Event.evRun a RunnableType.curr i none oc.interrupted ∈
        (runBody meta a RunnableType.curr i oc).2) ∧
    specNocurrBudget ⟨10, ⟨0, 100, 0⟩, ⟨0, 100, 0⟩⟩ AgentType.ppo = 30 := by
  constructor
  · intro meta a i oc
    constructor <;> simp [runBody, stepBudget, specNocurrBudget]
  · norm_num [specNocurrBudget, familyMeta]

/-- C3: the `Curriculum(tasks, output_dir=...)` call of `get_curriculum`
passes a keyword `Curriculum.__init__` does not accept, and the
`runnable.stats` read of `run_experiment` names an attribute that is
neither a slot nor a class attribute of `Curriculum`; both fail, so the
curriculum step-sum accumulation is unreachable without error. -/
theorem curriculum_call_and_stats_read_fail :
    kwargsAccepted curriculumInitParams 1 getCurriculumKwargs = false ∧
    curriculumHasAttr PyName.stats = false := by
  decide

/-- Helper: from a running state, a sequence of laps appends exactly the
reported durations to the lap history and leaves the last timestamp as the
open lap's start. -/
lemma GenericStopwatch.lapSeq_spec : ∀ (ts : List ℚ) (s : GenericStopwatch) (ls : ℚ),
    s.lap_start = some ls →
    (lapSeq s ts).1 = ⟨s.lap_times ++ (lapSeq s ts).2, some (ts.getLastD ls)⟩ := by
  intro ts
  induction ts with
  | nil =>
    intro s ls h
    cases s
    simp_all [lapSeq]
  | cons t ts ih =>
    intro s ls h
    simp only [lapSeq, lap, h]
    have hrec := ih ⟨s.lap_times ++ [t - ls], some t⟩ t rfl
    simp only [hrec]
    simp only [List.append_assoc, List.singleton_append, GenericStopwatch.mk.injEq,
      List.getLastD]
    cases ts with
    | nil => simp
    | cons u us => simp [List.getLast?_cons_cons]

/-- C9: after starting at `t0` and any sequence of completed `lap` calls at
timestamps `ts`, the recorded lap history equals the reported durations;
`stop(lap=false)` at time `t` returns their sum plus the still-open final
partial lap `t - last start`, `stop(lap=true)` first closes that final lap
and returns the sum of all recorded laps, and in both cases the resulting
state is no longer running. -/
theorem stopwatch_stop_totals (t0 : ℚ) (ts : List ℚ) (t : ℚ) :
    ((GenericStopwatch.runLaps t0 ts).1).lap_times = (GenericStopwatch.runLaps t0 ts).2 ∧
    GenericStopwatch.stop false t (GenericStopwatch.runLaps t0 ts).1 =
      some ((GenericStopwatch.runLaps t0 ts).2.sum + (t - ts.getLastD t0),
        ⟨(GenericStopwatch.runLaps t0 ts).2, none⟩) ∧
    GenericStopwatch.stop true t (GenericStopwatch.runLaps t0 ts).1 =
      some (((GenericStopwatch.runLaps t0 ts).2 ++ [t - ts.getLastD t0]).sum,
        ⟨(GenericStopwatch.runLaps t0 ts).2 ++ [t - ts.getLastD t0], none⟩) ∧
    GenericStopwatch.is_running ⟨(GenericStopwatch.runLaps t0 ts).2, none⟩ = false := by
  have hs := GenericStopwatch.lapSeq_spec ts (GenericStopwatch.start t0 ⟨[], none⟩) t0 rfl
  simp only [GenericStopwatch.runLaps]
  rw [hs]
  simp [GenericStopwatch.stop, GenericStopwatch.start, GenericStopwatch.is_running,
    GenericStopwatch.lapSeq]

/-- Helper: the global minimum bounds every element. -/
lemma listMin_le (l : List ℚ) : ∀ x ∈ l, listMin l ≤ x := by
  induction l with
  | nil => simp
  | cons x xs ih =>
    intro y hy
    cases xs with
    | nil =>
      rcases List.mem_cons.mp hy with rfl | hy'
      · simp [listMin]
      · simp at hy'
    | cons z zs =>
      rcases List.mem_cons.mp hy with rfl | hy'
      · simp only [listMin]
        exact min_le_left _ _
      · exact le_trans (min_le_right _ _) (ih y hy')

/-- Helper: the argmax fold returns its seed or a visited index, and its
value dominates the seed's value and every visited value. -/
lemma argmax_foldl_spec (l : List ℚ) : ∀ (js : List Nat) (b : Nat),
    ((js.foldl (fun bi j => if l.getD j 0 > l.getD bi 0 then j else bi) b) = b ∨
      (js.foldl (fun bi j => if l.getD j 0 > l.getD bi 0 then j else bi) b) ∈ js) ∧
    l.getD b 0 ≤ l.getD (js.foldl (fun bi j => if l.getD j 0 > l.getD bi 0 then j else bi) b) 0 ∧
    ∀ j ∈ js, l.getD j 0 ≤ l.getD (js.foldl (fun bi j => if l.getD j 0 > l.getD bi 0 then j else bi) b) 0 := by
  intro js
  induction js with
  | nil => simp
  | cons j js ih =>
    intro b
    simp only [List.foldl_cons]
    obtain ⟨h1, h2, h3⟩ := ih (if l.getD j 0 > l.getD b 0 then j else b)
    have hb : l.getD b 0 ≤ l.getD (if l.getD j 0 > l.getD b 0 then j else b) 0 := by
      split <;> [exact le_of_lt (by assumption); exact le_refl _]
    have hj : l.getD j 0 ≤ l.getD (if l.getD j 0 > l.getD b 0 then j else b) 0 := by
      split
      · exact le_refl _
      · exact le_of_not_lt (by assumption)
    refine ⟨?_, le_trans hb h2, ?_⟩
    · rcases h1 with h1 | h1
      · rw [h1]
        split
        · right; exact List.mem_cons_self _ _
        · left; rfl
      · right; exact List.mem_cons_of_mem _ h1
    · intro j' hj'
      rcases List.mem_cons.mp hj' with rfl | hj''
      · exact le_trans hj h2
      · exact h3 j' hj''

/-- Helper: for a nonempty list, `argmaxIdx` is in range and its value
dominates every element's value. -/
lemma argmaxIdx_spec (l : List ℚ) (hne : 0 < l.length) :
    argmaxIdx l < l.length ∧ ∀ j, j < l.length → l.getD j 0 ≤ l.getD (argmaxIdx l) 0 := by
  obtain ⟨h1, _, h3⟩ := argmax_foldl_spec l (List.range l.length) 0
  constructor
  · rcases h1 with h1 | h1
    · rw [argmaxIdx, h1]; exact hne
    · exact List.mem_range.mp h1
  · intro j hj
    exact h3 j (List.mem_range.mpr hj)

/-- C5: for every action-value vector and every binary legal-action mask of
the same length with at least one legal action, the transform
`v' = (v - min v) * mask + mask` of `get_action` gives every legal action a
value of at least 1 and every illegal action exactly 0, and the arg-max of
the transformed vector is an index where the mask is 1, regardless of the
sign or scale of the raw values. -/
theorem legal_mask_argmax_legal (v m : List ℚ)
    (hlen : v.length = m.length)
    (hbin : ∀ x ∈ m, x = 0 ∨ x = 1)
    (hleg : ∃ i, i < m.length ∧ m.getD i 0 = 1) :
    (∀ i, i < m.length → m.getD i 0 = 1 → 1 ≤ (maskTransform v m).getD i 0) ∧
    (∀ i, i < m.length → m.getD i 0 = 0 → (maskTransform v m).getD i 0 = 0) ∧
    m.getD (argmaxIdx (maskTransform v m)) 0 = 1 := by
  have hlen' : (maskTransform v m).length = m.length := by
    simp [maskTransform, hlen]
  have hval : ∀ i, i < m.length →
      (maskTransform v m).getD i 0 = (v.getD i 0 - listMin v) * m.getD i 0 + m.getD i 0 := by
    intro i hi
    have hiv : i < v.length := hlen ▸ hi
    have hit : i < (maskTransform v m).length := hlen' ▸ hi
    rw [List.getD_eq_getElem _ _ hit, List.getD_eq_getElem _ _ hiv, List.getD_eq_getElem _ _ hi]
    simp [maskTransform]
  have hlegal : ∀ i, i < m.length → m.getD i 0 = 1 → 1 ≤ (maskTransform v m).getD i 0 := by
    intro i hi h1
    rw [hval i hi, h1]
    have hiv : i < v.length := hlen ▸ hi
    have : listMin v ≤ v.getD i 0 := by
      rw [List.getD_eq_getElem _ _ hiv]
      exact listMin_le v _ (List.getElem_mem hiv)
    linarith
  have hillegal : ∀ i, i < m.length → m.getD i 0 = 0 → (maskTransform v m).getD i 0 = 0 := by
    intro i hi h0
    rw [hval i hi, h0]
    ring
  refine ⟨hlegal, hillegal, ?_⟩
  obtain ⟨i0, hi0, hm0⟩ := hleg
  have hne : 0 < (maskTransform v m).length := hlen' ▸ lt_of_le_of_lt (Nat.zero_le _) hi0
  obtain ⟨hr, hmax⟩ := argmaxIdx_spec (maskTransform v m) hne
  have hrm : argmaxIdx (maskTransform v m) < m.length := hlen' ▸ hr
  have hbig : 1 ≤ (maskTransform v m).getD (argmaxIdx (maskTransform v m)) 0 :=
    le_trans (hlegal i0 hi0 hm0) (hmax i0 (hlen' ▸ hi0))
  have hmem : m.getD (argmaxIdx (maskTransform v m)) 0 ∈ m := by
    rw [List.getD_eq_getElem _ _ hrm]
    exact List.getElem_mem hrm
  rcases hbin _ hmem with h0 | h1
  · exfalso
    have := hillegal _ hrm h0
    rw [this] at hbig
    linarith
  · exact h1

/-- Witness for `legal_mask_argmax_legal`: with raw values `[-5, 3]` and
mask `[0, 1]` the arg-max of the transformed vector is the legal index 1. -/
theorem legal_mask_argmax_legal_witness :
    ([(0 : ℚ), 1].getD (argmaxIdx (maskTransform [(-5 : ℚ), 3] [0, 1])) 0 = 1) :=
  (legal_mask_argmax_legal [(-5 : ℚ), 3] [0, 1] (by decide) (by decide)
    ⟨1, by decide, by decide⟩).2.2

/-- C6: for every gradient step `optStep` (arbitrary rewrite of the primary
parameters, as produced by the optimizer that holds only the primary
network's parameters) the target parameters after `update` are either
untouched (no learning step) or the result of the soft-update rule applied
to every parameter immediately after the learning step — never an output of
`optStep`; and the soft-update rule at `tau = 1` maps the target parameters
to the primary parameters in a single application. -/
theorem target_network_only_soft_updated :
    (∀ (optStep : List ℚ → List ℚ) (s : DQNState),
      ((DQNupdate optStep s).network = optStep s.network ∧
        (DQNupdate optStep s).target_network =
          soft_update_target DQN_TAU (optStep s.network) s.target_network) ∨
      ((DQNupdate optStep s).network = s.network ∧
        (DQNupdate optStep s).target_network = s.target_network)) ∧
    (∀ network_params target_params : List ℚ,
      network_params.length = target_params.length →
      soft_update_target 1 network_params target_params = network_params) := by
  constructor
  · intro optStep s
    by_cases h : (s.train_step + 1) % DQN_UPDATE_EVERY = 0 ∧
        s.batch_size ≤ min (s.memory_len + 1) DQN_REPLAY_MEMORY_SIZE
    · left
      simp only [DQNupdate]
      rw [if_pos h]
      exact ⟨rfl, rfl⟩
    · right
      simp only [DQNupdate]
      rw [if_neg h]
      exact ⟨rfl, rfl⟩
  · intro network_params
    induction network_params with
    | nil => intro tgt h; simp [soft_update_target]
    | cons p ps ih =>
      intro tgt h
      cases tgt with
      | nil => simp at h
      | cons t ts =>
        simp only [soft_update_target, List.zipWith_cons_cons, List.cons.injEq]
        refine ⟨by ring, ?_⟩
        exact ih ts (by simpa using h)

/-- Witness for `target_network_only_soft_updated`: one soft update at
`tau = 1` on concrete parameter vectors of equal length copies the primary
parameters. -/
theorem target_network_only_soft_updated_witness :
    soft_update_target 1 [2, 3] [5, 7] = [2, 3] :=
  target_network_only_soft_updated.2 [2, 3] [5, 7] (by decide)

/-- C10: every `get_action` call consumes the uniform draw before the
greedy/explore decision, even with `greedy = True`; a greedy call advances
the persisted stream position by exactly one, every call advances it by at
least one, and the next uniform draw after an interleaved greedy call reads
the stream one position later than it would have without it. -/
theorem get_action_consumes_uniform_draw_when_greedy
    (epsilon : ℚ) (n_actions : Nat) (q_val_act : List ℚ)
    (legal_mask : Option (List ℚ)) (r : RngState) :
    (getAction epsilon n_actions q_val_act legal_mask true r).2.pos = r.pos + 1 ∧
    (getAction epsilon n_actions q_val_act legal_mask true r).2.stream = r.stream ∧
    (∀ greedy, r.pos + 1 ≤ (getAction epsilon n_actions q_val_act legal_mask greedy r).2.pos) ∧
    (rngUniform (getAction epsilon n_actions q_val_act legal_mask true r).2).1 =
      r.stream (r.pos + 1) := by
  refine ⟨?_, ?_, ?_, ?_⟩
  · simp [getAction, rngUniform]
  · simp [getAction, rngUniform]
  · intro greedy
    cases greedy <;> cases legal_mask <;>
      simp only [getAction, rngUniform, rngChoice, rngIntegers] <;>
      split <;> simp
  · simp [getAction, rngUniform]

end CurriculumLearning
